import Mathlib

/-!
# Verification of the dgraph EE `restore` subcommand (`ee/backup/run.go`)

Shallow embedding of the restore orchestration: object-name grammar,
backup catalog enumeration, restore planner, per-group replay (badger
options, destination directory derivation, open/load/close sequencing)
and the top-level `run`/`Run` output behaviour.

Parts of the repository that are referenced by `run.go` but whose source
is not available here (the `Load` enumeration/iteration function and the
storage engine's open contract) are modelled from the specification and
carry a doc comment starting with `Modelled from the spec:`.
-/

namespace DgraphRestore

/-! ## Decimal digits: printing and parsing

The backup object naming grammar `r<timestamp>-g<groupID>.<ext>` uses
base-10 integers, as produced in Go by `fmt.Sprintf("%d", n)` and parsed
back by the catalog. We model strings as `List Char`. -/

/-- The character for a single decimal digit `d < 10` (`d ≥ 10` clamps to `9`;
never reached for `n % 10`). -/
def digitChar (d : Nat) : Char :=
  match d with
  | 0 => '0' | 1 => '1' | 2 => '2' | 3 => '3' | 4 => '4'
  | 5 => '5' | 6 => '6' | 7 => '7' | 8 => '8' | _ => '9'

/-- Accumulator-style decimal printer: digits of `n`, most significant first,
prepended to `acc`. Mirrors the digit loop of Go's `strconv.FormatInt`. -/
def natToDigits (n : Nat) (acc : List Char) : List Char :=
  if h : n = 0 then acc
  else natToDigits (n / 10) (digitChar (n % 10) :: acc)
termination_by n
decreasing_by exact Nat.div_lt_self (Nat.pos_of_ne_zero h) (by decide)

/-- Decimal representation of `n` as Go's `%d` verb prints it
(`0` prints as `"0"`, no padding, no leading zeros). -/
def natRepr (n : Nat) : List Char :=
  if n = 0 then ['0'] else natToDigits n []

/-- Value of a digit character (`'0'` ↦ 0 … `'9'` ↦ 9). -/
def digitVal (c : Char) : Nat := c.toNat - 48

/-- Reads a run of decimal digit characters, most significant first. -/
def digitsToNat (l : List Char) : Nat :=
  l.foldl (fun a c => a * 10 + digitVal c) 0

/-! ## The object naming grammar (spec §6)

`r<timestamp>-g<groupID>.<ext>`: literal `r`, then the decimal timestamp,
then literal `-g`, then the decimal group id, then a dot and an arbitrary
extension (accepted but ignored). -/

/-- Modelled from the spec: canonical formatting of a backup object name
from `(timestamp, groupID)` per the grammar `r<timestamp>-g<groupID>.<ext>`
(the backup writer's `fmt.Sprintf("r%d-g%d.backup", ...)`, not under `src/`). -/
def formatName (t g : Nat) (ext : List Char) : List Char :=
  'r' :: (natRepr t ++ '-' :: 'g' :: (natRepr g ++ '.' :: ext))

/-- Modelled from the spec: the catalog's parser for backup object names,
returning `(timestamp, groupID)` for names matching the grammar and `none`
otherwise (the name-matching logic inside `Load`, not under `src/`). -/
def parseName (s : List Char) : Option (Nat × Nat) :=
  match s with
  | 'r' :: rest =>
    let tds := rest.takeWhile Char.isDigit
    let rest2 := rest.dropWhile Char.isDigit
    if tds.isEmpty then none else
    match rest2 with
    | '-' :: 'g' :: rest3 =>
      let gds := rest3.takeWhile Char.isDigit
      let rest4 := rest3.dropWhile Char.isDigit
      if gds.isEmpty then none else
      match rest4 with
      | '.' :: _ => some (digitsToNat tds, digitsToNat gds)
      | _ => none
    | _ => none
  | _ => none

example : parseName ('r' :: '3' :: '2' :: '-' :: 'g' :: '2' :: '.' :: ['b']) = some (32, 2) := by
  decide

example : formatName 32 2 ['b'] = 'r' :: '3' :: '2' :: '-' :: 'g' :: '2' :: '.' :: ['b'] := by
  simp [formatName, natRepr, natToDigits, digitChar]

/-! ### Correctness of the decimal printer/parser pair -/

theorem digitVal_digitChar {d : Nat} (hd : d < 10) : digitVal (digitChar d) = d := by
  interval_cases d <;> decide

theorem isDigit_digitChar {d : Nat} (hd : d < 10) : (digitChar d).isDigit = true := by
  interval_cases d <;> decide

theorem natToDigits_acc (n : Nat) :
    ∀ acc, natToDigits n acc = natToDigits n [] ++ acc := by
  induction n using Nat.strong_induction_on with
  | _ n ih =>
    intro acc
    by_cases h : n = 0
    · subst h; simp [natToDigits]
    · conv_lhs => rw [natToDigits]
      conv_rhs => rw [natToDigits]
      simp only [h, dite_false]
      have hlt : n / 10 < n := Nat.div_lt_self (Nat.pos_of_ne_zero h) (by decide)
      rw [ih (n / 10) hlt, ih (n / 10) hlt (digitChar (n % 10) :: [])]
      simp

theorem natToDigits_digits (n : Nat) :
    ∀ c ∈ natToDigits n [], c.isDigit = true := by
  induction n using Nat.strong_induction_on with
  | _ n ih =>
    intro c hc
    by_cases h : n = 0
    · subst h; simp [natToDigits] at hc
    · rw [natToDigits] at hc
      simp only [h, dite_false] at hc
      have hlt : n / 10 < n := Nat.div_lt_self (Nat.pos_of_ne_zero h) (by decide)
      rw [natToDigits_acc] at hc
      rcases List.mem_append.mp hc with h1 | h1
      · exact ih (n / 10) hlt c h1
      · simp at h1; subst h1
        exact isDigit_digitChar (Nat.mod_lt n (by decide))

theorem natRepr_digits (n : Nat) : ∀ c ∈ natRepr n, c.isDigit = true := by
  intro c hc
  unfold natRepr at hc
  by_cases h : n = 0
  · simp [h] at hc; subst hc; decide
  · simp only [h, if_false] at hc
    exact natToDigits_digits n c hc

theorem natRepr_ne_nil (n : Nat) : natRepr n ≠ [] := by
  unfold natRepr
  by_cases h : n = 0
  · simp [h]
  · simp only [h, if_false]
    rw [natToDigits]
    simp only [h, dite_false]
    rw [natToDigits_acc]
    simp

theorem foldl_natToDigits (n : Nat) :
    ∀ a, List.foldl (fun a c => a * 10 + digitVal c) a (natToDigits n []) =
      a * 10 ^ (natToDigits n []).length + n := by
  induction n using Nat.strong_induction_on with
  | _ n ih =>
    intro a
    by_cases h : n = 0
    · subst h; simp [natToDigits]
    · have hlt : n / 10 < n := Nat.div_lt_self (Nat.pos_of_ne_zero h) (by decide)
      have hstep : natToDigits n [] = natToDigits (n / 10) [] ++ [digitChar (n % 10)] := by
        conv_lhs => rw [natToDigits]
        simp only [h, dite_false]
        exact natToDigits_acc (n / 10) [digitChar (n % 10)]
      rw [hstep]
      rw [List.foldl_append]
      simp only [List.foldl_cons, List.foldl_nil]
      rw [ih (n / 10) hlt a, digitVal_digitChar (Nat.mod_lt n (by decide)),
        List.length_append, List.length_singleton, pow_succ]
      have hmod : n / 10 * 10 + n % 10 = n := by omega
      calc (a * 10 ^ (natToDigits (n / 10) []).length + n / 10) * 10 + n % 10
          = a * (10 ^ (natToDigits (n / 10) []).length * 10) + (n / 10 * 10 + n % 10) := by
            ring
        _ = a * (10 ^ (natToDigits (n / 10) []).length * 10) + n := by rw [hmod]

theorem digitsToNat_natRepr (n : Nat) : digitsToNat (natRepr n) = n := by
  unfold natRepr digitsToNat
  by_cases h : n = 0
  · simp [h, digitVal]
  · simp only [h, if_false]
    rw [foldl_natToDigits n 0]
    simp

theorem natRepr_injective : Function.Injective natRepr := by
  intro m n h
  have := digitsToNat_natRepr m
  rw [h, digitsToNat_natRepr] at this
  omega

theorem takeWhile_all_append {p : Char → Bool} {y : Char} (xs ys : List Char)
    (hx : ∀ c ∈ xs, p c = true) (hy : p y = false) :
    (xs ++ y :: ys).takeWhile p = xs := by
  induction xs with
  | nil => simp [List.takeWhile, hy]
  | cons x xs ih =>
    have hpx : p x = true := hx x (List.mem_cons_self x xs)
    simp only [List.cons_append, List.takeWhile, hpx]
    exact congrArg (List.cons x) (ih (fun c hc => hx c (List.mem_cons_of_mem x hc)))

theorem dropWhile_all_append {p : Char → Bool} {y : Char} (xs ys : List Char)
    (hx : ∀ c ∈ xs, p c = true) (hy : p y = false) :
    (xs ++ y :: ys).dropWhile p = y :: ys := by
  induction xs with
  | nil => simp [List.dropWhile, hy]
  | cons x xs ih =>
    have hpx : p x = true := hx x (List.mem_cons_self x xs)
    simp only [List.cons_append, List.dropWhile, hpx]
    exact ih (fun c hc => hx c (List.mem_cons_of_mem x hc))

theorem parseName_formatName (t g : Nat) (ext : List Char) :
    parseName (formatName t g ext) = some (t, g) := by
  have hdash : Char.isDigit '-' = false := by decide
  have hdot : Char.isDigit '.' = false := by decide
  have htake1 :
      (natRepr t ++ '-' :: 'g' :: (natRepr g ++ '.' :: ext)).takeWhile Char.isDigit =
        natRepr t :=
    takeWhile_all_append _ _ (natRepr_digits t) hdash
  have hdrop1 :
      (natRepr t ++ '-' :: 'g' :: (natRepr g ++ '.' :: ext)).dropWhile Char.isDigit =
        '-' :: 'g' :: (natRepr g ++ '.' :: ext) :=
    dropWhile_all_append _ _ (natRepr_digits t) hdash
  have htake2 : (natRepr g ++ '.' :: ext).takeWhile Char.isDigit = natRepr g :=
    takeWhile_all_append _ _ (natRepr_digits g) hdot
  have hdrop2 : (natRepr g ++ '.' :: ext).dropWhile Char.isDigit = '.' :: ext :=
    dropWhile_all_append _ _ (natRepr_digits g) hdot
  unfold formatName parseName
  simp only [htake1, hdrop1, htake2, hdrop2, List.isEmpty_iff, natRepr_ne_nil,
    if_false, digitsToNat_natRepr]

/-! ## Data model -/

/-- One backup artifact discovered at the source location.
`stream = some bytes` is an object whose byte stream reads and bulk-loads
successfully; `stream = none` models an object whose streaming or load
fails mid-sequence. -/
structure BackupObject where
  timestamp : Nat
  groupID : Nat
  stream : Option (List Nat)
deriving DecidableEq

/-- Errors of the restore pipeline (spec §7 taxonomy; `ResolutionError`
happens before any code modelled here runs and is omitted). -/
inductive CatalogError where
  | emptyCatalog : CatalogError
  | duplicatePair : CatalogError
deriving DecidableEq

inductive RestoreError where
  | destinationConflict : List Char → RestoreError
  | replayError : Nat → Nat → RestoreError
deriving DecidableEq

/-! ## Backup catalog enumeration (spec §4.2) -/

/-- Modelled from the spec: catalog enumeration inside `Load` (not under
`src/`). Every listed object name is parsed against the grammar; names that
do not match are skipped silently; an empty parse result is a
`CatalogError`, as is a duplicate `(timestamp, groupID)` pair; on success
all parsed pairs are returned, none overwritten. -/
def enumerate (listing : List (List Char)) : Except CatalogError (List (Nat × Nat)) :=
  let parsed := listing.filterMap parseName
  if parsed.isEmpty then .error .emptyCatalog
  else if parsed.Nodup then .ok parsed
  else .error .duplicatePair

/-- Whether an `Except` result is an error. -/
def isErr {ε α : Type} (e : Except ε α) : Bool :=
  match e with
  | .error _ => true
  | .ok _ => false

/-! ## Restore planner (spec §4.3) -/

/-- Modelled from the spec: for one group, keep exactly the ordered
sub-sequence of its objects with `timestamp > since` (the `since`
filtering of `Load`, not under `src/`). -/
def planGroup (since : Nat) (objs : List BackupObject) : List BackupObject :=
  objs.filter (fun o => since < o.timestamp)

/-- Modelled from the spec: `plan(catalog, since)` — apply `planGroup` to
every group of the catalog. -/
def restorePlan (since : Nat) (catalog : List (Nat × List BackupObject)) :
    List (Nat × List BackupObject) :=
  catalog.map (fun e => (e.1, planGroup since e.2))

/-- Modelled from the spec: the orchestrator invokes the replay engine only
for groups with a non-empty plan (spec §4.5); the others are skipped. -/
def plannedGroups (since : Nat) (catalog : List (Nat × List BackupObject)) :
    List (Nat × List BackupObject) :=
  (restorePlan since catalog).filter (fun e => !e.2.isEmpty)

/-! ## Badger options as set by `runRestore` (src/ee/backup/run.go:124-131) -/

inductive TableLoadingMode where
  | fileIO | loadToRAM | memoryMap
deriving DecidableEq

structure BadgerOptions where
  dir : List Char
  valueDir : List Char
  syncWrites : Bool
  tableLoadingMode : TableLoadingMode
  valueThreshold : Nat
  numVersionsToKeep : Nat
deriving DecidableEq

/-- Go's `math.MaxInt32`. -/
def maxInt32 : Nat := 2 ^ 31 - 1

/-- `badger.DefaultOptions` (external library defaults; every field that
`runRestore` relies on is overwritten below, so the values here are
immaterial to the theorems). -/
def badgerDefaultOptions : BadgerOptions :=
  { dir := [], valueDir := [], syncWrites := false,
    tableLoadingMode := .loadToRAM, valueThreshold := 32, numVersionsToKeep := 1 }

/-- Model of Go's `filepath.Join(base, elem)` for a clean, nonempty base. -/
def filepathJoin (base elem : List Char) : List Char :=
  base ++ '/' :: elem

/-- The posting directory for a group: `filepath.Join(pdir, fmt.Sprintf("p%d", groupId))`
(src/ee/backup/run.go:129). -/
def groupDir (pdir : List Char) (groupId : Nat) : List Char :=
  filepathJoin pdir ('p' :: natRepr groupId)

/-- The badger options assembled by `runRestore`'s load callback
(src/ee/backup/run.go:124-130): defaults, then `SyncWrites = true`,
`TableLoadingMode = MemoryMap`, `ValueThreshold = 1 << 10`,
`NumVersionsToKeep = math.MaxInt32`, `Dir = Join(pdir, "p<groupId>")`,
`ValueDir = Dir`. -/
def restoreOptions (pdir : List Char) (groupId : Nat) : BadgerOptions :=
  let bo := badgerDefaultOptions
  let bo := { bo with syncWrites := true }
  let bo := { bo with tableLoadingMode := .memoryMap }
  let bo := { bo with valueThreshold := 2 ^ 10 }
  let bo := { bo with numVersionsToKeep := maxInt32 }
  let bo := { bo with dir := groupDir pdir groupId }
  { bo with valueDir := groupDir pdir groupId }

/-! ## Replay engine (spec §4.4, src/ee/backup/run.go:123-137) -/

/-- An open handle to a badger instance. -/
structure BadgerDB where
  opts : BadgerOptions
deriving DecidableEq

/-- Modelled from the spec: the storage engine's create-fresh-instance
contract (`badger.OpenManaged`, an external library call): opening rooted
at an already-existing (pre-populated) directory is a fatal
`DestinationConflictError`; otherwise a fresh instance is created.
`existing` is the set of directories present before this open. -/
def openManaged (existing : List (List Char)) (bo : BadgerOptions) :
    Except RestoreError BadgerDB :=
  if bo.dir ∈ existing then .error (.destinationConflict bo.dir)
  else .ok ⟨bo⟩

/-- Observable events of one restore run. -/
inductive Ev where
  | openDir : List Char → Ev
  | loadObj : Nat → Nat → Ev
  | loadFail : Nat → Nat → Ev
  | closeDb : List Char → Ev
deriving DecidableEq

/-- Modelled from the spec: stream the group's objects, in order, into the
engine's bulk-load entry point (`db.Load` driven by `Load`'s iteration, not
under `src/`); abort at the first failing object, reporting its timestamp;
on success the resulting store is the concatenation of the loaded byte
streams in order. -/
def loadSeq (g : Nat) : List BackupObject → List Ev × Except Nat (List Nat)
  | [] => ([], .ok [])
  | o :: rest =>
    match o.stream with
    | none => ([.loadFail g o.timestamp], .error o.timestamp)
    | some bytes =>
      let (evs, r) := loadSeq g rest
      (.loadObj g o.timestamp :: evs, r.map (fun l => bytes ++ l))

/-- Per-group result (spec §3 `RestoreOutcome`): the resulting store's
bytes on success, or the group's error. -/
inductive Outcome where
  | success : List Nat → Outcome
  | failure : RestoreError → Outcome
deriving DecidableEq

def Outcome.isFailure : Outcome → Bool
  | .success _ => false
  | .failure _ => true

/-- The load callback of `runRestore` (src/ee/backup/run.go:123-137):
assemble options, `badger.OpenManaged` (propagating its error), then
`db.Load` with `defer db.Close()` — the close happens on success and on
load failure alike. Returns the run's events and the group's outcome. -/
def replayGroup (existing : List (List Char)) (pdir : List Char) (g : Nat)
    (objs : List BackupObject) : List Ev × Outcome :=
  let bo := restoreOptions pdir g
  match openManaged existing bo with
  | .error e => ([], .failure e)
  | .ok _ =>
    let (evs, r) := loadSeq g objs
    match r with
    | .error t => (.openDir bo.dir :: evs ++ [.closeDb bo.dir], .failure (.replayError g t))
    | .ok store => (.openDir bo.dir :: evs ++ [.closeDb bo.dir], .success store)

/-! ## Restore orchestrator (spec §4.5) -/

/-- Modelled from the spec: the orchestrator replays every group with a
non-empty plan and collects every group's outcome; one group's failure
does not stop the others (`Load`'s iteration, not under `src/`). -/
def runRestoreModel (existing : List (List Char)) (pdir : List Char) (since : Nat)
    (catalog : List (Nat × List BackupObject)) : List Ev × List (Nat × Outcome) :=
  let groups := plannedGroups since catalog
  ((groups.map (fun e => (replayGroup existing pdir e.1 e.2).1)).flatten,
   groups.map (fun e => (e.1, (replayGroup existing pdir e.1 e.2).2)))

/-! ## Top-level `run` and `Restore.Cmd.Run` (src/ee/backup/run.go:84-90,101-115) -/

/-- Output events of the process. -/
inductive RunEv where
  | stdoutLine : List Char → RunEv
  | stderrErr : RestoreError → RunEv
  | elapsed : RunEv
  | exitCode : Nat → RunEv
deriving DecidableEq

/-- `run()` (src/ee/backup/run.go:101-115): print the two banner lines,
run `runRestore`, and — via the deferred closure — print the elapsed-time
line only when the returned error is nil. `res` is `runRestore`'s result. -/
def runTrace (location pdir : List Char) (res : Option RestoreError) : List RunEv :=
  [RunEv.stdoutLine (("Restoring backups from: ").toList ++ location),
   RunEv.stdoutLine (("Writing postings to: ").toList ++ pdir)] ++
  (match res with
   | none => [RunEv.elapsed]
   | some _ => [])

/-- `Restore.Cmd.Run` (src/ee/backup/run.go:84-90): call `run()`; if it
returns an error, print the error to stderr and exit with code 1. -/
def cmdRunTrace (location pdir : List Char) (res : Option RestoreError) : List RunEv :=
  runTrace location pdir res ++
  (match res with
   | none => []
   | some e => [RunEv.stderrErr e, RunEv.exitCode 1])

/-! ## Helper lemmas -/

theorem restoreOptions_dir (pdir : List Char) (g : Nat) :
    (restoreOptions pdir g).dir = groupDir pdir g := rfl

theorem restoreOptions_valueDir (pdir : List Char) (g : Nat) :
    (restoreOptions pdir g).valueDir = groupDir pdir g := rfl

theorem groupDir_inj (pdir : List Char) (g g' : Nat) :
    groupDir pdir g = groupDir pdir g' ↔ g = g' := by
  constructor
  · intro h
    unfold groupDir filepathJoin at h
    have h1 := List.append_cancel_left h
    have h2 : natRepr g = natRepr g' := by
      simpa using h1
    exact natRepr_injective h2
  · intro h; rw [h]

/-- The spec example `r32-g2.backup ↦ timestamp=32, groupID=2`. -/
example : parseName (("r32-g2.backup").toList) = some (32, 2) := by decide

theorem replayGroup_eq_of_conflict (existing : List (List Char)) (pdir : List Char)
    (g : Nat) (objs : List BackupObject) (h : groupDir pdir g ∈ existing) :
    replayGroup existing pdir g objs =
      ([], .failure (.destinationConflict (groupDir pdir g))) := by
  simp only [replayGroup, openManaged, restoreOptions_dir]
  simp [h]

theorem replayGroup_fst_of_fresh (existing : List (List Char)) (pdir : List Char)
    (g : Nat) (objs : List BackupObject) (h : groupDir pdir g ∉ existing) :
    (replayGroup existing pdir g objs).1 =
      .openDir (groupDir pdir g) :: (loadSeq g objs).1 ++ [.closeDb (groupDir pdir g)] := by
  rcases hload : loadSeq g objs with ⟨evs, r⟩
  cases r <;> simp [replayGroup, openManaged, restoreOptions_dir, h, hload]

theorem openDir_not_mem_loadSeq (g : Nat) (objs : List BackupObject) (d : List Char) :
    Ev.openDir d ∉ (loadSeq g objs).1 := by
  induction objs with
  | nil => simp [loadSeq]
  | cons o rest ih =>
    cases h : o.stream <;> simp [loadSeq, h, ih]

theorem replayGroup_openDir_eq (existing : List (List Char)) (pdir d : List Char)
    (g : Nat) (objs : List BackupObject)
    (hmem : Ev.openDir d ∈ (replayGroup existing pdir g objs).1) :
    d = groupDir pdir g := by
  by_cases h : groupDir pdir g ∈ existing
  · rw [replayGroup_eq_of_conflict existing pdir g objs h] at hmem
    simp at hmem
  · rw [replayGroup_fst_of_fresh existing pdir g objs h] at hmem
    rcases List.mem_cons.mp hmem with he | he
    · injection he
    · rcases List.mem_append.mp he with h2 | h2
      · exact absurd h2 (openDir_not_mem_loadSeq g objs d)
      · simp at h2

theorem planGroup_eq_dropWhile (s : Nat) (objs : List BackupObject)
    (hs : objs.Pairwise (fun a b => a.timestamp ≤ b.timestamp)) :
    planGroup s objs = objs.dropWhile (fun o => decide (o.timestamp ≤ s)) := by
  induction objs with
  | nil => rfl
  | cons o rest ih =>
    rcases List.pairwise_cons.mp hs with ⟨ho, hrest⟩
    by_cases hc : s < o.timestamp
    · have hkeep : rest.filter (fun o => decide (s < o.timestamp)) = rest :=
        List.filter_eq_self.mpr (fun b hb => by
          have := ho b hb; simp; omega)
      have hnot : decide (o.timestamp ≤ s) = false := by simp; omega
      simp [planGroup, List.filter_cons, hc, List.dropWhile_cons, hnot, hkeep]
    · have hyes : decide (o.timestamp ≤ s) = true := by simp; omega
      have hdrop : decide (s < o.timestamp) = false := by simp; omega
      simp only [planGroup, List.filter_cons, hdrop, List.dropWhile_cons, hyes,
        if_false, if_true]
      exact ih hrest

theorem suffix_of_all_gt (s : Nat) (objs u : List BackupObject)
    (hu : u <:+ objs) (hgt : ∀ o ∈ u, s < o.timestamp) :
    u <:+ planGroup s objs := by
  obtain ⟨v, rfl⟩ := hu
  rw [planGroup, List.filter_append]
  have hkeep : u.filter (fun o => decide (s < o.timestamp)) = u :=
    List.filter_eq_self.mpr (fun a ha => by simpa using hgt a ha)
  rw [hkeep]
  exact List.suffix_append _ _

theorem openDir_skipped_group (existing : List (List Char)) (pdir : List Char) (s : Nat)
    (catalog : List (Nat × List BackupObject)) (e : Nat × List BackupObject)
    (hnd : (catalog.map Prod.fst).Nodup) (he : e ∈ catalog)
    (hempty : planGroup s e.2 = []) :
    Ev.openDir (groupDir pdir e.1) ∉ (runRestoreModel existing pdir s catalog).1 := by
  intro hmem
  simp only [runRestoreModel] at hmem
  rw [List.mem_flatten] at hmem
  obtain ⟨l, hl, hml⟩ := hmem
  rw [List.mem_map] at hl
  obtain ⟨e', he', rfl⟩ := hl
  have hd := replayGroup_openDir_eq existing pdir (groupDir pdir e.1) e'.1 e'.2 hml
  have hgg : e.1 = e'.1 := (groupDir_inj pdir e.1 e'.1).mp hd
  simp only [plannedGroups, restorePlan, List.mem_filter, List.mem_map] at he'
  obtain ⟨⟨c, hc, rfl⟩, hnem⟩ := he'
  have hec : e = c := List.inj_on_of_nodup_map hnd he hc hgg
  rw [← hec, hempty] at hnem
  simp at hnem

/-! ## Claim theorems -/

/-- Claim C4: for every group replayed, the storage engine options assembled by
`runRestore` request synchronous durability (`SyncWrites = true`) and
retention of the full version history of every key
(`NumVersionsToKeep = math.MaxInt32`, the engine's no-pruning maximum). -/
theorem restore_options_durable_full_history (pdir : List Char) (g : Nat) :
    (restoreOptions pdir g).syncWrites = true ∧
    (restoreOptions pdir g).numVersionsToKeep = maxInt32 :=
  ⟨rfl, rfl⟩

/-- Claim C5: the destination directory of group `g` under root `d` is exactly
`d` joined with the posting prefix `p` followed by the unpadded decimal
group id (and the value directory coincides with it), and within one run
two groups get the same directory exactly when they are the same group. -/
theorem group_destination_deterministic_disjoint (d : List Char) (g g' : Nat) :
    (restoreOptions d g).dir = filepathJoin d ('p' :: natRepr g) ∧
    (restoreOptions d g).valueDir = (restoreOptions d g).dir ∧
    ((restoreOptions d g).dir = (restoreOptions d g').dir ↔ g = g') := by
  refine ⟨rfl, rfl, ?_⟩
  rw [restoreOptions_dir, restoreOptions_dir]
  exact groupDir_inj d g g'

/-- Witness for claim C5: groups 1 and 2 under root `"d"` get distinct directories. -/
theorem group_destination_deterministic_disjoint_witness :
    (restoreOptions ['d'] 1).dir = filepathJoin ['d'] ('p' :: natRepr 1) ∧
    ¬ ((restoreOptions ['d'] 1).dir = (restoreOptions ['d'] 2).dir) :=
  ⟨(group_destination_deterministic_disjoint ['d'] 1 2).1,
   fun h => by
    have := (group_destination_deterministic_disjoint ['d'] 1 2).2.2.mp h
    exact absurd this (by decide)⟩

/-- Claim C6: if the destination directory of group `g` already exists before the
replay, the replay fails with a fatal `DestinationConflictError` for that
directory and performs no open, load or close at all — it never silently
overwrites or merges into an already-populated directory. -/
theorem replay_conflict_on_existing_dir (existing : List (List Char))
    (pdir : List Char) (g : Nat) (objs : List BackupObject)
    (h : groupDir pdir g ∈ existing) :
    replayGroup existing pdir g objs =
      ([], .failure (.destinationConflict (groupDir pdir g))) :=
  replayGroup_eq_of_conflict existing pdir g objs h

/-- Witness for claim C6: replaying group 1 into a root where `p1` already exists
fails with the conflict error and no events. -/
theorem replay_conflict_on_existing_dir_witness :
    replayGroup [groupDir ['d'] 1] ['d'] 1 [⟨5, 1, some [7]⟩] =
      ([], .failure (.destinationConflict (groupDir ['d'] 1))) :=
  replay_conflict_on_existing_dir [groupDir ['d'] 1] ['d'] 1 [⟨5, 1, some [7]⟩]
    (List.mem_singleton.mpr rfl)

/-- Claim C7: whenever the open succeeds (fresh directory), the replay trace is
exactly the open, the per-object load events, and a final close of the
instance — the close happens whether the load sequence succeeds or fails
mid-sequence (`defer db.Close()`). -/
theorem replay_always_closes (existing : List (List Char)) (pdir : List Char)
    (g : Nat) (objs : List BackupObject)
    (h : groupDir pdir g ∉ existing) :
    (replayGroup existing pdir g objs).1 =
      .openDir (groupDir pdir g) :: (loadSeq g objs).1 ++ [.closeDb (groupDir pdir g)] ∧
    (replayGroup existing pdir g objs).1.getLast? =
      some (.closeDb (groupDir pdir g)) := by
  have htrace := replayGroup_fst_of_fresh existing pdir g objs h
  refine ⟨htrace, ?_⟩
  rw [htrace]
  exact List.getLast?_concat _

/-- Witness for claim C7: a mid-sequence load failure (group 1, failing object at
timestamp 5) still ends with a close of the instance. -/
theorem replay_always_closes_witness :
    (replayGroup [] ['d'] 1 [⟨5, 1, none⟩]).1 =
      .openDir (groupDir ['d'] 1) :: (loadSeq 1 [⟨5, 1, none⟩]).1 ++
        [.closeDb (groupDir ['d'] 1)] ∧
    (replayGroup [] ['d'] 1 [⟨5, 1, none⟩]).1.getLast? =
      some (.closeDb (groupDir ['d'] 1)) :=
  replay_always_closes [] ['d'] 1 [⟨5, 1, none⟩] (List.not_mem_nil _)

/-- Claim C8: for every object name matching the grammar
`r<timestamp>-g<groupID>.<ext>`, parsing the name to
`(timestamp, groupID)` and re-formatting that pair into the canonical name
form is idempotent: re-parsing the formatted name yields the same pair. -/
theorem name_parse_format_roundtrip (s : List Char) (t g : Nat) (ext : List Char)
    (h : parseName s = some (t, g)) :
    parseName (formatName t g ext) = some (t, g) :=
  parseName_formatName t g ext

/-- Witness for claim C8: `r32-g2.backup` parses to `(32, 2)` and the canonical
re-format re-parses to the same pair. -/
theorem name_parse_format_roundtrip_witness :
    parseName (formatName 32 2 (("backup").toList)) = some (32, 2) :=
  name_parse_format_roundtrip (("r32-g2.backup").toList) 32 2 (("backup").toList)
    (by decide)

theorem replayGroup_snd_fresh (pdir : List Char) (g : Nat) (objs : List BackupObject) :
    (replayGroup [] pdir g objs).2 =
      (match (loadSeq g objs).2 with
       | .error t => Outcome.failure (.replayError g t)
       | .ok store => Outcome.success store) := by
  rcases hload : loadSeq g objs with ⟨evs, r⟩
  cases r <;> simp [replayGroup, openManaged, hload]

/-- Claim C9: replay of the same catalog and watermark into two different fresh
destination roots yields byte-for-byte identical per-group outcomes (the
resulting stores and errors do not depend on the destination root). -/
theorem restore_deterministic (d1 d2 : List Char) (s : Nat)
    (catalog : List (Nat × List BackupObject)) (hne : d1 ≠ d2) :
    (runRestoreModel [] d1 s catalog).2 = (runRestoreModel [] d2 s catalog).2 := by
  simp only [runRestoreModel]
  refine List.map_congr_left ?_
  intro e _
  rw [replayGroup_snd_fresh, replayGroup_snd_fresh]

/-- Witness for claim C9: one group, one object, replayed into the distinct roots
`"a"` and `"b"`, gives identical outcome reports. -/
theorem restore_deterministic_witness :
    (runRestoreModel [] ['a'] 0 [(1, [⟨5, 1, some [7]⟩])]).2 =
      (runRestoreModel [] ['b'] 0 [(1, [⟨5, 1, some [7]⟩])]).2 :=
  restore_deterministic ['a'] ['b'] 0 [(1, [⟨5, 1, some [7]⟩])] (by decide)

/-- Claim C10: the elapsed-duration message is printed if and only if the run's
top-level error is nil; a failed run prints the two banner lines, the
error on stderr, and exits 1, with no elapsed message. -/
theorem elapsed_printed_iff_success (location pdir : List Char)
    (res : Option RestoreError) :
    (RunEv.elapsed ∈ cmdRunTrace location pdir res ↔ res = none) ∧
    (∀ e, res = some e →
      cmdRunTrace location pdir res =
        [RunEv.stdoutLine (("Restoring backups from: ").toList ++ location),
         RunEv.stdoutLine (("Writing postings to: ").toList ++ pdir),
         RunEv.stderrErr e, RunEv.exitCode 1]) := by
  cases res <;> simp [cmdRunTrace, runTrace]

/-- Witness for claim C10: a successful run prints the elapsed message; a run failing
with a replay error prints the banners, the error and exit 1 only. -/
theorem elapsed_printed_iff_success_witness :
    RunEv.elapsed ∈ cmdRunTrace [] [] none ∧
    cmdRunTrace [] [] (some (.replayError 1 5)) =
      [RunEv.stdoutLine (("Restoring backups from: ").toList),
       RunEv.stdoutLine (("Writing postings to: ").toList),
       RunEv.stderrErr (.replayError 1 5), RunEv.exitCode 1] :=
  ⟨(elapsed_printed_iff_success [] [] none).1.mpr rfl,
   by simpa using
     (elapsed_printed_iff_success [] [] (some (.replayError 1 5))).2
       (.replayError 1 5) rfl⟩

/-- Claim C3: catalog enumeration fails exactly when no listed name matches the
grammar or two parsed objects share a `(timestamp, groupID)` pair; a
non-matching name is skipped silently (removing it does not change the
result); and a successful enumeration returns every parsed pair with none
overwritten. -/
theorem catalog_error_characterization (listing l1 l2 : List (List Char))
    (nm : List Char) (cat : List (Nat × Nat)) :
    (isErr (enumerate listing) = true ↔
      listing.filterMap parseName = [] ∨ ¬ (listing.filterMap parseName).Nodup) ∧
    (parseName nm = none → enumerate (l1 ++ nm :: l2) = enumerate (l1 ++ l2)) ∧
    (enumerate listing = .ok cat → cat = listing.filterMap parseName) := by
  refine ⟨?_, ?_, ?_⟩
  · by_cases h1 : listing.filterMap parseName = []
    · simp [enumerate, isErr, h1]
    · have hne : (listing.filterMap parseName).isEmpty = false := by
        simpa [List.isEmpty_iff] using h1
      by_cases h2 : (listing.filterMap parseName).Nodup
      · simp [enumerate, isErr, hne, h1, h2]
      · simp [enumerate, isErr, hne, h1, h2]
  · intro hnm
    simp [enumerate, List.filterMap_append, List.filterMap_cons, hnm]
  · intro hok
    by_cases h1 : listing.filterMap parseName = []
    · simp [enumerate, isErr, h1] at hok
    · have hne : (listing.filterMap parseName).isEmpty = false := by
        simpa [List.isEmpty_iff] using h1
      by_cases h2 : (listing.filterMap parseName).Nodup
      · simp [enumerate, hne, h2] at hok
        exact hok.symm
      · simp [enumerate, hne, h2] at hok

/-- Witness for claim C3: the non-grammar name `junk` is skipped silently, and the
singleton listing `r1-g1.b` enumerates to exactly its parsed pair. -/
theorem catalog_error_characterization_witness :
    enumerate ([] ++ ("junk").toList :: [("r1-g1.b").toList]) =
      enumerate ([] ++ [("r1-g1.b").toList]) ∧
    ([(1, 1)] : List (Nat × Nat)) = [("r1-g1.b").toList].filterMap parseName :=
  ⟨(catalog_error_characterization [("r1-g1.b").toList] [] [("r1-g1.b").toList]
      (("junk").toList) [(1, 1)]).2.1 (by decide),
   (catalog_error_characterization [("r1-g1.b").toList] [] [] (("junk").toList)
      [(1, 1)]).2.2 (by rfl)⟩

/-- Claim C1: for a catalog whose per-group sequences are sorted ascending by
timestamp (and whose group ids are distinct), the plan of each group is
exactly the ordered sub-sequence with `timestamp > since` — equivalently
the longest suffix whose timestamps all exceed `since` — and a group whose
timestamps are all `≤ since` has an empty plan and is skipped: no fresh
directory is opened for it anywhere in the run. -/
theorem planner_keeps_suffix_gt_since (s : Nat)
    (catalog : List (Nat × List BackupObject))
    (hnd : (catalog.map Prod.fst).Nodup)
    (hsort : ∀ e ∈ catalog, e.2.Pairwise (fun a b => a.timestamp ≤ b.timestamp)) :
    ∀ e ∈ catalog,
      planGroup s e.2 = e.2.dropWhile (fun o => decide (o.timestamp ≤ s)) ∧
      planGroup s e.2 <:+ e.2 ∧
      (∀ o ∈ planGroup s e.2, s < o.timestamp) ∧
      (∀ u, u <:+ e.2 → (∀ o ∈ u, s < o.timestamp) → u <:+ planGroup s e.2) ∧
      ((∀ o ∈ e.2, o.timestamp ≤ s) →
        planGroup s e.2 = [] ∧
        ∀ existing pdir,
          Ev.openDir (groupDir pdir e.1) ∉ (runRestoreModel existing pdir s catalog).1) := by
  intro e he
  have hdrop := planGroup_eq_dropWhile s e.2 (hsort e he)
  refine ⟨hdrop, ?_, ?_, ?_, ?_⟩
  · rw [hdrop]; exact List.dropWhile_suffix _
  · intro o ho
    have := List.of_mem_filter ho
    simpa using this
  · exact fun u hu hgt => suffix_of_all_gt s e.2 u hu hgt
  · intro hall
    have hempty : planGroup s e.2 = [] := by
      rw [planGroup, List.filter_eq_nil_iff]
      intro o ho
      have := hall o ho
      simp; omega
    exact ⟨hempty, fun existing pdir =>
      openDir_skipped_group existing pdir s catalog e hnd he hempty⟩

/-- Witness for claim C1: for the spec's example catalog
`{1 ↦ [r10, r25], 2 ↦ [r15]}`: with `since = 15`, group 1's plan is the
longest suffix `[r25]` (maximality at the concrete suffix); with
`since = 25`, group 1's plan is empty and no directory `p1` is opened in
the whole run. -/
theorem planner_keeps_suffix_gt_since_witness :
    [(⟨25, 1, some [2]⟩ : BackupObject)] <:+
      planGroup 15 [⟨10, 1, some [1]⟩, ⟨25, 1, some [2]⟩] ∧
    planGroup 25 [⟨10, 1, some [1]⟩, ⟨25, 1, some [2]⟩] = [] ∧
    Ev.openDir (groupDir ['d'] 1) ∉
      (runRestoreModel [] ['d'] 25
        [(1, [⟨10, 1, some [1]⟩, ⟨25, 1, some [2]⟩]), (2, [⟨15, 2, some [3]⟩])]).1 := by
  refine ⟨?_, ?_, ?_⟩
  · exact (planner_keeps_suffix_gt_since 15
      [(1, [⟨10, 1, some [1]⟩, ⟨25, 1, some [2]⟩]), (2, [⟨15, 2, some [3]⟩])]
      (by decide) (by decide)
      (1, [⟨10, 1, some [1]⟩, ⟨25, 1, some [2]⟩]) (by decide)).2.2.2.1
      [⟨25, 1, some [2]⟩] (by decide) (by decide)
  · exact ((planner_keeps_suffix_gt_since 25
      [(1, [⟨10, 1, some [1]⟩, ⟨25, 1, some [2]⟩]), (2, [⟨15, 2, some [3]⟩])]
      (by decide) (by decide)
      (1, [⟨10, 1, some [1]⟩, ⟨25, 1, some [2]⟩]) (by decide)).2.2.2.2
      (by decide)).1
  · exact ((planner_keeps_suffix_gt_since 25
      [(1, [⟨10, 1, some [1]⟩, ⟨25, 1, some [2]⟩]), (2, [⟨15, 2, some [3]⟩])]
      (by decide) (by decide)
      (1, [⟨10, 1, some [1]⟩, ⟨25, 1, some [2]⟩]) (by decide)).2.2.2.2
      (by decide)).2 [] ['d']

/-- Claim C2: the run's report has one entry per planned group, and the entry of
any group `H` equals `H`'s standalone replay outcome, even when some other
group `G`'s replay fails — other groups are unaffected by `G`'s failure
and the report enumerates every group, not just the first failure. -/
theorem outcomes_independent_and_enumerated (existing : List (List Char))
    (pdir : List Char) (s : Nat) (catalog : List (Nat × List BackupObject))
    (gE hE : Nat × List BackupObject)
    (hg : gE ∈ plannedGroups s catalog) (hh : hE ∈ plannedGroups s catalog)
    (hfail : (replayGroup existing pdir gE.1 gE.2).2.isFailure = true) :
    (hE.1, (replayGroup existing pdir hE.1 hE.2).2) ∈
      (runRestoreModel existing pdir s catalog).2 ∧
    (runRestoreModel existing pdir s catalog).2.map Prod.fst =
      (plannedGroups s catalog).map Prod.fst := by
  constructor
  · simp only [runRestoreModel, List.mem_map]
    exact ⟨hE, hh, rfl⟩
  · simp [runRestoreModel, List.map_map, Function.comp]

/-- Witness for claim C2: group 1's single object fails to load, yet group 2's
outcome appears in the report as its standalone (successful) replay, and
the report covers both planned groups. -/
theorem outcomes_independent_and_enumerated_witness :
    ((2 : Nat), (replayGroup [] ['d'] 2 [⟨7, 2, some [3]⟩]).2) ∈
      (runRestoreModel [] ['d'] 0 [(1, [⟨5, 1, none⟩]), (2, [⟨7, 2, some [3]⟩])]).2 ∧
    (runRestoreModel [] ['d'] 0 [(1, [⟨5, 1, none⟩]), (2, [⟨7, 2, some [3]⟩])]).2.map
        Prod.fst =
      (plannedGroups 0 [(1, [⟨5, 1, none⟩]), (2, [⟨7, 2, some [3]⟩])]).map Prod.fst :=
  outcomes_independent_and_enumerated [] ['d'] 0
    [(1, [⟨5, 1, none⟩]), (2, [⟨7, 2, some [3]⟩])]
    (1, [⟨5, 1, none⟩]) (2, [⟨7, 2, some [3]⟩])
    (by decide) (by decide) (by decide)

end DgraphRestore
